import Mathlib

/-!
webdav-server: namespace builder, request router, pre-auth gate, volume source

A shallow embedding of `main.go` (`NewWindowsHandler`, `WindowsHandler.ServeHTTP`,
the closure registered with `http.HandleFunc`) and of `disk/disk_windows.go`
(`partitions`), with the properties of the specification stated over it.

Conventions of the embedding:

* a Go `string` is its sequence of bytes, a `List Nat` (a byte is a number below 256;
  every theorem below that quantifies over strings holds for all lists, which
  covers all byte sequences);
* a Go `error` is `Option Nat`: `none` is `nil`, `some e` is a non-nil error carrying
  the Windows error number `e`;
* calls into the operating system are read from an explicit record of their results;
* the handler a request is passed to is recorded as a value of `Dispatch`.
-/

set_option autoImplicit false

/-! ## Strings -/

/-- A Go string: its bytes. -/
abbrev GoString := List Nat

/-- A Go error value: `none` is `nil`. -/
abbrev GoError := Option Nat

/-- The bytes of an ASCII string literal of the source. -/
def ascii (s : String) : GoString := s.toList.map Char.toNat

namespace strings

/-- Go `strings.HasPrefix(s, prefix)`:
`len(s) >= len(prefix) && s[:len(prefix)] == prefix`. -/
def HasPrefix (s pre : GoString) : Bool :=
  decide (pre.length ≤ s.length) && decide (s.take pre.length = pre)

/-- The byte written for byte `c` by the ASCII path of `strings.ToLower`:
`if 'A' <= c && c <= 'Z' { c += 'a' - 'A' }`. -/
def lowerASCII (c : Nat) : Nat :=
  if 65 ≤ c ∧ c ≤ 90 then c + 32 else c

/-- Go `strings.ToLower` on a one-byte string `[c]` (the only use in the source is
on `p[0:1]`). A byte below `utf8.RuneSelf` (0x80) takes the ASCII path: `A`..`Z`
is shifted by `'a' - 'A'`, any other byte is kept. A byte from 0x80 on is not
valid UTF-8 on its own; `strings.Map(unicode.ToLower, s)` decodes it as
`utf8.RuneError` and writes that rune, the three bytes `EF BF BD`. -/
def ToLowerByte (c : Nat) : GoString :=
  if c < 128 then [lowerASCII c] else [239, 191, 189]

/-- Go `strings.ToLower` on a string whose bytes are all below 0x80 (its `isASCII`
path): every byte `A`..`Z` is shifted, the others are kept. -/
def ToLowerASCII (s : GoString) : GoString :=
  s.map lowerASCII

end strings

/-! ## The handler table and the router (`main.go`) -/

/-- The `webdav.FileSystem` a handler serves: `webdav.Dir(name)` or the in-memory file
system created by `webdav.NewMemFS()`, given by the directories made in it. -/
inductive FileSystem where
  | Dir (name : GoString)
  | MemFS (dirs : List GoString)
  deriving DecidableEq, Repr

/-- The fields of `webdav.Handler` set by the source. `LockSystem` is the identity of
the lock-system instance: the ordinal of the `webdav.NewMemLS()` call that made it. -/
structure Handler where
  Prefix : GoString
  FileSystem : FileSystem
  LockSystem : Nat
  deriving DecidableEq, Repr

/-- Go `type WindowsHandler struct`. -/
structure WindowsHandler where
  handlers : List Handler
  memHandler : Handler
  deriving DecidableEq, Repr

/-- What `WindowsHandler.ServeHTTP` does with a request: it calls
`tis.memHandler.ServeHTTP`, or `handler.ServeHTTP` for the handler at position `i` of
`tis.handlers`, or `http.NotFound`. -/
inductive Dispatch where
  | memHandler
  | handler (i : Nat)
  | NotFound
  deriving DecidableEq, Repr

/-- The loop `for _, handler := range tis.handlers` of `ServeHTTP`; `i` is the
position of the head of the remaining handlers in `tis.handlers`. -/
def serveRange : List Handler → Nat → GoString → Dispatch
  | [], _, _ => Dispatch.NotFound
  | handler :: rest, i, path =>
    if strings.HasPrefix path handler.Prefix then Dispatch.handler i
    else serveRange rest (i + 1) path

/-- Go `func (tis *WindowsHandler) ServeHTTP(w, r)`, as a function of `r.URL.Path`. -/
def WindowsHandler.ServeHTTP (tis : WindowsHandler) (path : GoString) : Dispatch :=
  if path = ascii "/" then Dispatch.memHandler
  else serveRange tis.handlers 0 path

/-! ## The pre-auth gate (`main.go`, closure passed to `http.HandleFunc`) -/

/-- Go `var userPassword = map[string]string{...}`, as its key/value pairs. -/
def userPassword : List (GoString × GoString) :=
  [(ascii "root", ascii "123456!")]

/-- What the gate reads of a request: the result `(u, p, ok)` of `r.BasicAuth()`. -/
structure Request where
  username : GoString
  password : GoString
  ok : Bool
  deriving DecidableEq, Repr

/-- One effect of the gate on the response writer or on the wrapped handler. -/
inductive Effect where
  | HeaderSet (key value : GoString)
  | WriteHeader (code : Nat)
  | ServeHTTP
  deriving DecidableEq, Repr

/-- The two calls made on every rejection. -/
def unauthorized : List Effect :=
  [Effect.HeaderSet (ascii "WWW-Authenticate") (ascii "Basic realm=\"WebDAV\""),
   Effect.WriteHeader 401]

/-- The closure `func(w http.ResponseWriter, r *http.Request)` of `main`: the list of
effects it performs, in order. -/
def preAuth (r : Request) : List Effect :=
  if !r.ok then unauthorized
  else
    match userPassword.lookup r.username with
    | none => unauthorized
    | some v => if v ≠ r.password then unauthorized else [Effect.ServeHTTP]

/-! ## The namespace builder (`main.go`, `NewWindowsHandler`) -/

/-- Go `disk.PartitionStat`. -/
structure PartitionStat where
  Device : GoString
  MountPoint : GoString
  FsType : GoString
  Opts : GoString
  deriving DecidableEq, Repr

/-- Modelled from the spec: `(*webdav.memFS).Mkdir` is not among the sources; the spec
says the builder must "register the identifier as an empty directory entry in the
synthetic root". The root is given by the names of its directories; making a
directory that exists changes nothing (the source discards the error). -/
def Mkdir (dirs : List GoString) (name : GoString) : List GoString :=
  if name ∈ dirs then dirs else dirs ++ [name]

/-- The variables of `NewWindowsHandler` that its loop updates: `handlers`, the
directories of `memFS`, and how many times `webdav.NewMemLS()` was called. -/
structure BuildState where
  handlers : List Handler
  memFS : List GoString
  memLS : Nat
  deriving DecidableEq, Repr

/-- The loop `for _, partition := range partitions` of `NewWindowsHandler`. -/
def buildRange : List PartitionStat → BuildState → BuildState
  | [], st => st
  | partition :: rest, st =>
    match partition.MountPoint with
    | [] => buildRange rest st
    | c :: _ =>
      let v := strings.ToLowerByte c
      buildRange rest
        { handlers := st.handlers ++
            [{ Prefix := ascii "/" ++ v,
               FileSystem := FileSystem.Dir (v ++ ascii ":"),
               LockSystem := st.memLS }],
          memFS := Mkdir st.memFS v,
          memLS := st.memLS + 1 }

/-- Go `func NewWindowsHandler() (*WindowsHandler, error)`, as a function of what
`disk.Partitions()` returned. -/
def NewWindowsHandler (Partitions : List PartitionStat × GoError) :
    Option WindowsHandler × GoError :=
  match Partitions with
  | (_, some err) => (none, some err)
  | (partitions, none) =>
    let st := buildRange partitions { handlers := [], memFS := [], memLS := 0 }
    (some { handlers := st.handlers,
            memHandler := { Prefix := ascii "/",
                            FileSystem := FileSystem.MemFS st.memFS,
                            LockSystem := st.memLS } }, none)

/-- The partitions the loop does not skip: `len(p) >= 1`. -/
def usable (partitions : List PartitionStat) : List PartitionStat :=
  partitions.filter (fun partition => decide (partition.MountPoint ≠ []))

/-- The value of `v` in the loop body: `strings.ToLower(p[0:1])`. -/
def lowerFirst (partition : PartitionStat) : GoString :=
  match partition.MountPoint with
  | [] => []
  | c :: _ => strings.ToLowerByte c

/-- Every backend of a handler table: the volume handlers, then the root handler. -/
def WindowsHandler.backends (tis : WindowsHandler) : List Handler :=
  tis.handlers ++ [tis.memHandler]

/-! ## Lock systems -/

/-- Modelled from the spec: `webdav.NewMemLS` and the lock system it returns are not
among the sources. The spec calls each result "a fresh lock-system instance" with
its own state, "independent" of every other instance. The state of all instances is
a table per instance identity: the resource names locked in it. -/
abbrev LockTables := Nat → List GoString

/-- Modelled from the spec: a lock on resource `name` requested through a backend. It
is refused when `name` is already locked in the lock system of that backend, and is
recorded there otherwise. -/
def Handler.lock (h : Handler) (name : GoString) (t : LockTables) : LockTables × Bool :=
  if name ∈ t h.LockSystem then (t, false)
  else (Function.update t h.LockSystem (name :: t h.LockSystem), true)

/-- Modelled from the spec: whether a lock on `name` is visible through a backend. -/
def Handler.locked (h : Handler) (name : GoString) (t : LockTables) : Bool :=
  decide (name ∈ t h.LockSystem)

/-! ## The volume source (`disk/disk_windows.go`) -/

/-- What `procGetVolumeInformation.Call` returns and writes: `driveret`, the error of
the call (never `nil`: it is the `syscall.Errno` of the last error), and the
contents of `lpFileSystemFlags` and `lpFileSystemNameBuffer` after the call. -/
structure VolumeInformation where
  driveret : Nat
  err : Nat
  lpFileSystemFlags : Nat
  lpFileSystemNameBuffer : List Nat
  deriving DecidableEq, Repr

/-- The results of the calls into `kernel32.dll`.
`GetLogicalDriveStringsW`: `diskret`, the error of the call, and the bytes written
to `lpBuffer`. `GetDriveTypeW path`: `typeret`, and the number `windows.GetLastError()`
reads after it. `GetVolumeInformationW volpath`: see `VolumeInformation`. -/
structure Kernel32 where
  GetLogicalDriveStringsW : Nat × Nat × List Nat
  GetDriveTypeW : GoString → Nat × Nat
  GetVolumeInformationW : GoString → VolumeInformation

def FileFileCompression : Nat := 16

def FileReadOnlyVolume : Nat := 524288

/-- The slice `lpBuffer` after the first call: `make([]byte, 254)` with the bytes
the call wrote. -/
def Kernel32.lpBuffer (k : Kernel32) : List Nat :=
  (k.GetLogicalDriveStringsW.2.2 ++ List.replicate 254 0).take 254

/-- Go `windows.GetLastError()`: `nil` when the number read is 0. -/
def GetLastError (r0 : Nat) : GoError :=
  if r0 ≠ 0 then some r0 else none

/-- The value `d` appended for drive letter `v` once its volume information is read. -/
def descriptor (v : Nat) (info : VolumeInformation) : PartitionStat :=
  let path := [v] ++ ascii ":"
  let opts := if info.lpFileSystemFlags &&& FileReadOnlyVolume ≠ 0 then ascii "ro" else ascii "rw"
  let opts := if info.lpFileSystemFlags &&& FileFileCompression ≠ 0 then opts ++ ascii ".compress"
    else opts
  { MountPoint := path,
    Device := path,
    FsType := info.lpFileSystemNameBuffer.filter (fun b => decide (b ≠ 0)),
    Opts := opts }

/-- The loop `for _, v := range lpBuffer` of `partitions`, with `ret` so far. -/
def partitionsRange (k : Kernel32) : List Nat → List PartitionStat →
    List PartitionStat × GoError
  | [], ret => (ret, none)
  | v :: rest, ret =>
    if 65 ≤ v ∧ v ≤ 90 then
      let path := [v] ++ ascii ":"
      let typeret := (k.GetDriveTypeW path).1
      if typeret = 0 then (ret, GetLastError (k.GetDriveTypeW path).2)
      else if typeret = 2 ∨ typeret = 3 ∨ typeret = 4 ∨ typeret = 5 then
        let info := k.GetVolumeInformationW ([v] ++ ascii ":/")
        if info.driveret = 0 then
          if typeret = 5 ∨ typeret = 2 then partitionsRange k rest ret
          else (ret, some info.err)
        else partitionsRange k rest (ret ++ [descriptor v info])
      else partitionsRange k rest ret
    else partitionsRange k rest ret

/-- Go `func partitions() ([]PartitionStat, error)`. -/
def partitions (k : Kernel32) : List PartitionStat × GoError :=
  if k.GetLogicalDriveStringsW.1 = 0 then ([], some k.GetLogicalDriveStringsW.2.1)
  else partitionsRange k k.lpBuffer []

/-- Go `func Partitions() ([]PartitionStat, error)`. -/
def Partitions (k : Kernel32) : List PartitionStat × GoError :=
  partitions k

/-- What one drive letter of the buffer contributes when no call aborts the loop:
its descriptor when the drive has one of the four types and its volume information
was read, nothing otherwise. -/
def contribution (k : Kernel32) (v : Nat) : Option PartitionStat :=
  if 65 ≤ v ∧ v ≤ 90 then
    let typeret := (k.GetDriveTypeW ([v] ++ ascii ":")).1
    let info := k.GetVolumeInformationW ([v] ++ ascii ":/")
    if (typeret = 2 ∨ typeret = 3 ∨ typeret = 4 ∨ typeret = 5) ∧ info.driveret ≠ 0 then
      some (descriptor v info)
    else none
  else none

/-! ## Concrete inputs used below -/

/-- A partition as `partitions` builds it for drive letter `v`, on NTFS, writable. -/
def drive (v : Nat) : PartitionStat :=
  { Device := [v] ++ ascii ":", MountPoint := [v] ++ ascii ":",
    FsType := ascii "NTFS", Opts := ascii "rw" }

/-- A handler table with the single binding `/c`. -/
def tableC : WindowsHandler :=
  { handlers := [{ Prefix := ascii "/c", FileSystem := FileSystem.Dir (ascii "c:"),
                   LockSystem := 0 }],
    memHandler := { Prefix := ascii "/", FileSystem := FileSystem.MemFS [ascii "c"],
                    LockSystem := 1 } }

/-- A host with the fixed drives `C:` and `D:` where the volume information of `C:`
cannot be read (error 5, access denied) and that of `D:` can. -/
def hostLockedC : Kernel32 :=
  { GetLogicalDriveStringsW := (8, 0, [67, 0, 58, 0, 92, 0, 0, 0, 68, 0, 58, 0, 92, 0, 0, 0]),
    GetDriveTypeW := fun _ => (3, 0),
    GetVolumeInformationW := fun volpath =>
      if volpath = ascii "C:/" then
        { driveret := 0, err := 5, lpFileSystemFlags := 0, lpFileSystemNameBuffer := [] }
      else
        { driveret := 1, err := 0, lpFileSystemFlags := 0,
          lpFileSystemNameBuffer := ascii "NTFS" } }

/-- A host with a CD-ROM drive `E:` without a disc between the fixed drives
`C:` and `D:`. -/
def hostEmptyTray : Kernel32 :=
  { GetLogicalDriveStringsW := (12, 0, [67, 0, 58, 0, 92, 0, 0, 0, 69, 0, 58, 0, 92, 0, 0, 0,
      68, 0, 58, 0, 92, 0, 0, 0]),
    GetDriveTypeW := fun path => if path = ascii "E:" then (5, 0) else (3, 0),
    GetVolumeInformationW := fun volpath =>
      if volpath = ascii "E:/" then
        { driveret := 0, err := 21, lpFileSystemFlags := 0, lpFileSystemNameBuffer := [] }
      else
        { driveret := 1, err := 0, lpFileSystemFlags := 0,
          lpFileSystemNameBuffer := ascii "NTFS" } }

/-- A host with the fixed drives `C:`, `D:` and `E:` where only the volume information
of `D:` cannot be read (error 5, access denied). -/
def hostLockedD : Kernel32 :=
  { GetLogicalDriveStringsW := (12, 0, [67, 0, 58, 0, 92, 0, 0, 0, 68, 0, 58, 0, 92, 0, 0, 0,
      69, 0, 58, 0, 92, 0, 0, 0]),
    GetDriveTypeW := fun _ => (3, 0),
    GetVolumeInformationW := fun volpath =>
      if volpath = ascii "D:/" then
        { driveret := 0, err := 5, lpFileSystemFlags := 0, lpFileSystemNameBuffer := [] }
      else
        { driveret := 1, err := 0, lpFileSystemFlags := 0,
          lpFileSystemNameBuffer := ascii "NTFS" } }

/-- A host with the drives `C:`, `D:` and `E:` where the type of `D:` cannot be
determined (type 0, last error 15) and `C:` and `E:` are fixed drives. -/
def hostUnknownD : Kernel32 :=
  { GetLogicalDriveStringsW := (12, 0, [67, 0, 58, 0, 92, 0, 0, 0, 68, 0, 58, 0, 92, 0, 0, 0,
      69, 0, 58, 0, 92, 0, 0, 0]),
    GetDriveTypeW := fun path => if path = ascii "D:" then (0, 15) else (3, 0),
    GetVolumeInformationW := fun _ =>
      { driveret := 1, err := 0, lpFileSystemFlags := 0,
        lpFileSystemNameBuffer := ascii "NTFS" } }

/-- Two partitions with the same mount point `C:`, as they would follow from a drive
list that names `C:` twice. -/
def twoC : List PartitionStat :=
  [drive 67, { drive 67 with FsType := ascii "FAT32" }]

/-! ## String prefixes -/

theorem HasPrefix_iff (s pre : GoString) :
    strings.HasPrefix s pre = true ↔ pre <+: s := by
  unfold strings.HasPrefix
  rw [Bool.and_eq_true, decide_eq_true_eq, decide_eq_true_eq]
  constructor
  · rintro ⟨_, htake⟩
    exact List.prefix_iff_eq_take.mpr htake.symm
  · intro h
    exact ⟨h.length_le, (List.prefix_iff_eq_take.mp h).symm⟩

theorem HasPrefix_eq_false_iff (s pre : GoString) :
    strings.HasPrefix s pre = false ↔ ¬ pre <+: s := by
  rw [← HasPrefix_iff, Bool.not_eq_true]

/-! ## The router -/

theorem serveRange_ne_memHandler (hs : List Handler) (n : Nat) (path : GoString) :
    serveRange hs n path ≠ Dispatch.memHandler := by
  induction hs generalizing n with
  | nil => simp [serveRange]
  | cons h t ih =>
    unfold serveRange
    split
    · simp
    · exact ih (n + 1)

theorem serveRange_eq_NotFound (hs : List Handler) (n : Nat) (path : GoString) :
    serveRange hs n path = Dispatch.NotFound ↔ ∀ h ∈ hs, ¬ h.Prefix <+: path := by
  induction hs generalizing n with
  | nil => simp [serveRange]
  | cons h t ih =>
    unfold serveRange
    by_cases hp : strings.HasPrefix path h.Prefix = true
    · have hp2 := (HasPrefix_iff _ _).mp hp
      simp [hp, hp2]
    · have hp2 : ¬ h.Prefix <+: path := fun c => hp ((HasPrefix_iff _ _).mpr c)
      simp [hp, hp2, ih (n + 1)]

theorem serveRange_eq_handler (hs : List Handler) (n : Nat) (path : GoString) (i : Nat) :
    serveRange hs n path = Dispatch.handler i ↔
      n ≤ i ∧ ∃ h, hs[i - n]? = some h ∧ h.Prefix <+: path ∧
        ∀ j, j < i - n → ∀ g, hs[j]? = some g → ¬ g.Prefix <+: path := by
  induction hs generalizing n with
  | nil => simp [serveRange]
  | cons h t ih =>
    unfold serveRange
    by_cases hp : strings.HasPrefix path h.Prefix = true
    · have hp2 := (HasPrefix_iff _ _).mp hp
      rw [if_pos hp]
      constructor
      · intro e
        have e2 : n = i := by injection e
        subst e2
        exact ⟨le_refl _, h, by simp, hp2, by intro j hj; omega⟩
      · rintro ⟨hle, g, _, _, hfirst⟩
        rcases Nat.eq_or_lt_of_le hle with e | hlt
        · rw [e]
        · exact absurd hp2 (hfirst 0 (by omega) h (by simp))
    · have hp2 : ¬ h.Prefix <+: path := fun c => hp ((HasPrefix_iff _ _).mpr c)
      rw [if_neg hp, ih (n + 1)]
      constructor
      · rintro ⟨hle, g, hg, hgp, hfirst⟩
        refine ⟨by omega, g, ?_, hgp, ?_⟩
        · have e : i - n = (i - (n + 1)) + 1 := by omega
          rw [e, List.getElem?_cons_succ]
          exact hg
        · intro j hj g2 hg2
          cases j with
          | zero =>
            rw [List.getElem?_cons_zero] at hg2
            cases hg2
            exact hp2
          | succ j =>
            rw [List.getElem?_cons_succ] at hg2
            exact hfirst j (by omega) g2 hg2
      · rintro ⟨hle, g, hg, hgp, hfirst⟩
        have hne : n ≠ i := by
          intro e
          subst e
          rw [Nat.sub_self, List.getElem?_cons_zero] at hg
          cases hg
          exact hp2 hgp
        have e : i - n = (i - (n + 1)) + 1 := by omega
        refine ⟨by omega, g, ?_, hgp, ?_⟩
        · rw [e, List.getElem?_cons_succ] at hg
          exact hg
        · intro j hj g2 hg2
          exact hfirst (j + 1) (by omega) g2 (by rw [List.getElem?_cons_succ]; exact hg2)

/-- C1: for a request path other than `/`, `ServeHTTP` never calls the root handler,
and it calls the handler at position `i` exactly when that binding is the first one,
in registration order, whose `Prefix` is a string prefix of the path (the path may
be the bare prefix itself); being a function, it calls no second handler. -/
theorem ServeHTTP_first_match (tis : WindowsHandler) (path : GoString)
    (hpath : path ≠ ascii "/") :
    tis.ServeHTTP path ≠ Dispatch.memHandler ∧
    ∀ i, (tis.ServeHTTP path = Dispatch.handler i ↔
      ∃ h, tis.handlers[i]? = some h ∧ (∃ rest, path = h.Prefix ++ rest) ∧
        ∀ j, j < i → ∀ g, tis.handlers[j]? = some g → ¬ ∃ rest, path = g.Prefix ++ rest) := by
  unfold WindowsHandler.ServeHTTP
  rw [if_neg hpath]
  refine ⟨serveRange_ne_memHandler _ _ _, fun i => ?_⟩
  rw [serveRange_eq_handler]
  simp only [Nat.zero_le, true_and, Nat.sub_zero]
  constructor
  · rintro ⟨h, hh, ⟨rest, hrest⟩, hfirst⟩
    refine ⟨h, hh, ⟨rest, hrest.symm⟩, ?_⟩
    rintro j hj g hg ⟨rest2, hrest2⟩
    exact hfirst j hj g hg ⟨rest2, hrest2.symm⟩
  · rintro ⟨h, hh, ⟨rest, hrest⟩, hfirst⟩
    refine ⟨h, hh, ⟨rest, hrest.symm⟩, ?_⟩
    rintro j hj g hg ⟨rest2, hrest2⟩
    exact hfirst j hj g hg ⟨rest2, hrest2.symm⟩

/-- Witness of C1: with the single binding `/c`, the bare path `/c` goes to it. -/
theorem ServeHTTP_first_match_witness :
    ascii "/c" ≠ ascii "/" ∧ tableC.ServeHTTP (ascii "/c") ≠ Dispatch.memHandler ∧
      tableC.ServeHTTP (ascii "/c") = Dispatch.handler 0 :=
  ⟨by decide, (ServeHTTP_first_match tableC (ascii "/c") (by decide)).1,
    ((ServeHTTP_first_match tableC (ascii "/c") (by decide)).2 0).mpr
      ⟨_, rfl, ⟨[], by decide⟩, fun j hj => absurd hj (Nat.not_lt_zero j)⟩⟩

/-- C2: whatever the binding list, the empty one included, a request for exactly `/`
is passed to the root handler `memHandler`: not to a volume binding, and no
not-found answer is given. -/
theorem ServeHTTP_root (tis : WindowsHandler) :
    tis.ServeHTTP (ascii "/") = Dispatch.memHandler ∧
    (∀ i, tis.ServeHTTP (ascii "/") ≠ Dispatch.handler i) ∧
    tis.ServeHTTP (ascii "/") ≠ Dispatch.NotFound := by
  have h : tis.ServeHTTP (ascii "/") = Dispatch.memHandler := by
    unfold WindowsHandler.ServeHTTP
    rw [if_pos rfl]
  rw [h]
  exact ⟨rfl, fun i => by simp, by simp⟩

/-- C3, refuted as stated: with the single binding `/c` (no binding `/ca`), the
request for `/ca` is dispatched to the `/c` backend. -/
theorem ServeHTTP_ca_goes_to_c :
    tableC.handlers.map Handler.Prefix = [ascii "/c"] ∧
    ¬ (tableC.ServeHTTP (ascii "/ca") ≠ Dispatch.handler 0) := by
  decide

/-- C3, amended: matching is by raw string prefix, with no path-segment boundary. A
path that extends the prefix `/c` by any bytes at all (`/ca`, `/cx`, `/c/foo`, `/c`)
is dispatched to the `/c` binding, unless an earlier binding already matches it. -/
theorem ServeHTTP_extends_bound_prefix (tis : WindowsHandler) (i : Nat) (h : Handler)
    (rest : GoString) (hi : tis.handlers[i]? = some h) (hc : h.Prefix = ascii "/c")
    (hfirst : ∀ j, j < i → ∀ g, tis.handlers[j]? = some g →
      strings.HasPrefix (ascii "/c" ++ rest) g.Prefix = false) :
    tis.ServeHTTP (ascii "/c" ++ rest) = Dispatch.handler i := by
  have hne : ascii "/c" ++ rest ≠ ascii "/" := by
    intro e
    have := congrArg List.length e
    simp [ascii] at this
  unfold WindowsHandler.ServeHTTP
  rw [if_neg hne, serveRange_eq_handler]
  refine ⟨Nat.zero_le _, h, hi, ?_, ?_⟩
  · rw [hc]
    exact List.prefix_append _ _
  · intro j hj g hg
    exact (HasPrefix_eq_false_iff _ _).mp (hfirst j hj g hg)

/-- Witness of the amended C3: `/ca` with the single binding `/c`. -/
theorem ServeHTTP_extends_bound_prefix_witness :
    tableC.ServeHTTP (ascii "/c" ++ ascii "a") = Dispatch.handler 0 :=
  ServeHTTP_extends_bound_prefix tableC 0 _ (ascii "a") rfl rfl
    (fun j hj => absurd hj (Nat.not_lt_zero j))

/-- C4: for a path that is not `/` and that no binding's `Prefix` is a string prefix
of, `ServeHTTP` (a total function) calls neither a volume backend nor the root
handler and answers not-found; with no bindings at all, every path other than `/`
is answered not-found. -/
theorem ServeHTTP_no_match :
    (∀ (tis : WindowsHandler) (path : GoString), path ≠ ascii "/" →
      (∀ h ∈ tis.handlers, strings.HasPrefix path h.Prefix = false) →
      tis.ServeHTTP path = Dispatch.NotFound ∧
      tis.ServeHTTP path ≠ Dispatch.memHandler ∧
      ∀ i, tis.ServeHTTP path ≠ Dispatch.handler i) ∧
    (∀ (tis : WindowsHandler) (path : GoString), tis.handlers = [] → path ≠ ascii "/" →
      tis.ServeHTTP path = Dispatch.NotFound) := by
  have key : ∀ (tis : WindowsHandler) (path : GoString), path ≠ ascii "/" →
      (∀ h ∈ tis.handlers, strings.HasPrefix path h.Prefix = false) →
      tis.ServeHTTP path = Dispatch.NotFound := by
    intro tis path hpath hno
    unfold WindowsHandler.ServeHTTP
    rw [if_neg hpath, serveRange_eq_NotFound]
    intro h hh
    exact (HasPrefix_eq_false_iff _ _).mp (hno h hh)
  refine ⟨fun tis path hpath hno => ?_, fun tis path hnil hpath => ?_⟩
  · rw [key tis path hpath hno]
    exact ⟨rfl, by simp, fun i => by simp⟩
  · apply key tis path hpath
    rw [hnil]
    intro h hh
    cases hh

/-- Witness of C4: `/z/foo` with the single binding `/c`, and `/anything` with no
binding. -/
theorem ServeHTTP_no_match_witness :
    tableC.ServeHTTP (ascii "/z/foo") = Dispatch.NotFound ∧
    ({ tableC with handlers := [] } : WindowsHandler).ServeHTTP (ascii "/anything")
      = Dispatch.NotFound :=
  ⟨(ServeHTTP_no_match.1 tableC (ascii "/z/foo") (by decide) (by decide)).1,
    ServeHTTP_no_match.2 _ (ascii "/anything") rfl (by decide)⟩

/-! ## The pre-auth gate -/

/-- C9: the gate calls the wrapped handler if and only if `r.BasicAuth()` reported
credentials (`ok`), the user name is a key of `userPassword` and the password equals
the one stored for it; then that call is all it does. For every other request it
sets the `WWW-Authenticate` header, writes status 401, and does not call the
handler. -/
theorem preAuth_iff (r : Request) :
    (Effect.ServeHTTP ∈ preAuth r ↔
      (r.ok = true ∧ ∃ v, userPassword.lookup r.username = some v ∧ v = r.password)) ∧
    ((r.ok = true ∧ ∃ v, userPassword.lookup r.username = some v ∧ v = r.password) →
      preAuth r = [Effect.ServeHTTP]) ∧
    (¬ (r.ok = true ∧ ∃ v, userPassword.lookup r.username = some v ∧ v = r.password) →
      preAuth r = [Effect.HeaderSet (ascii "WWW-Authenticate") (ascii "Basic realm=\"WebDAV\""),
                   Effect.WriteHeader 401]) := by
  have hun : Effect.ServeHTTP ∉ unauthorized := by decide
  have hdef : unauthorized = [Effect.HeaderSet (ascii "WWW-Authenticate")
      (ascii "Basic realm=\"WebDAV\""), Effect.WriteHeader 401] := rfl
  rw [← hdef]
  unfold preAuth
  cases hok : r.ok with
  | false => simp [hun]
  | true =>
    cases hl : userPassword.lookup r.username with
    | none => simp [hun]
    | some v =>
      by_cases hv : v = r.password
      · simp [hv]
      · simp [hv, hun]

/-- Witness of C9: `root` with the stored password is let through, `root` with
another password is answered 401. -/
theorem preAuth_iff_witness :
    preAuth { username := ascii "root", password := ascii "123456!", ok := true }
      = [Effect.ServeHTTP] ∧
    preAuth { username := ascii "root", password := ascii "123456", ok := true }
      = [Effect.HeaderSet (ascii "WWW-Authenticate") (ascii "Basic realm=\"WebDAV\""),
         Effect.WriteHeader 401] :=
  ⟨(preAuth_iff _).2.1 ⟨rfl, ascii "123456!", by decide, rfl⟩,
    (preAuth_iff _).2.2 (by decide)⟩

/-! ## The namespace builder -/

theorem usable_cons_nil (p : PartitionStat) (ps : List PartitionStat)
    (h : p.MountPoint = []) : usable (p :: ps) = usable ps := by
  simp [usable, List.filter_cons, h]

theorem usable_cons_ne (p : PartitionStat) (ps : List PartitionStat) (c : Nat)
    (tl : List Nat) (h : p.MountPoint = c :: tl) : usable (p :: ps) = p :: usable ps := by
  simp [usable, List.filter_cons, h]

theorem lowerFirst_of_cons (p : PartitionStat) (c : Nat) (tl : List Nat)
    (h : p.MountPoint = c :: tl) : lowerFirst p = strings.ToLowerByte c := by
  simp [lowerFirst, h]

theorem buildRange_Prefix (ps : List PartitionStat) (st : BuildState) :
    (buildRange ps st).handlers.map Handler.Prefix =
      st.handlers.map Handler.Prefix ++
        (usable ps).map (fun p => ascii "/" ++ lowerFirst p) := by
  induction ps generalizing st with
  | nil => simp [buildRange, usable]
  | cons p ps ih =>
    rcases hmp : p.MountPoint with _ | ⟨c, tl⟩
    · rw [usable_cons_nil p ps hmp]
      simp only [buildRange, hmp]
      exact ih st
    · rw [usable_cons_ne p ps c tl hmp]
      simp only [buildRange, hmp]
      rw [ih]
      simp [lowerFirst_of_cons p c tl hmp]

theorem buildRange_LockSystem (ps : List PartitionStat) (st : BuildState)
    (hlt : ∀ x ∈ st.handlers.map Handler.LockSystem, x < st.memLS)
    (hnd : (st.handlers.map Handler.LockSystem).Nodup) :
    (∀ x ∈ (buildRange ps st).handlers.map Handler.LockSystem, x < (buildRange ps st).memLS) ∧
      ((buildRange ps st).handlers.map Handler.LockSystem).Nodup := by
  induction ps generalizing st with
  | nil => exact ⟨hlt, hnd⟩
  | cons p ps ih =>
    rcases hmp : p.MountPoint with _ | ⟨c, tl⟩
    · simp only [buildRange, hmp]
      exact ih st hlt hnd
    · simp only [buildRange, hmp]
      apply ih
      · intro x hx
        simp only [List.map_append, List.map_cons, List.map_nil, List.mem_append,
          List.mem_singleton] at hx
        rcases hx with hx | hx
        · exact Nat.lt_succ_of_lt (hlt x hx)
        · rw [hx]
          exact Nat.lt_succ_self _
      · simp only [List.map_append, List.map_cons, List.map_nil]
        rw [List.nodup_append]
        refine ⟨hnd, List.nodup_singleton _, ?_⟩
        intro x hx hx2
        rw [List.mem_singleton] at hx2
        exact absurd (hlt x hx) (by rw [hx2]; exact Nat.lt_irrefl _)

theorem NewWindowsHandler_eq (ps : List PartitionStat) :
    NewWindowsHandler (ps, none) =
      (some { handlers := (buildRange ps { handlers := [], memFS := [], memLS := 0 }).handlers,
              memHandler :=
                { Prefix := ascii "/",
                  FileSystem := FileSystem.MemFS
                    (buildRange ps { handlers := [], memFS := [], memLS := 0 }).memFS,
                  LockSystem := (buildRange ps { handlers := [], memFS := [], memLS := 0 }).memLS } },
       none) := rfl

theorem NewWindowsHandler_Prefix (ps : List PartitionStat) :
    (buildRange ps { handlers := [], memFS := [], memLS := 0 }).handlers.map Handler.Prefix =
      (usable ps).map (fun p => ascii "/" ++ lowerFirst p) := by
  rw [buildRange_Prefix]
  simp

theorem usable_MountPoint (ps : List PartitionStat) (p : PartitionStat)
    (h : p ∈ usable ps) : ∃ c tl, p.MountPoint = c :: tl := by
  unfold usable at h
  rw [List.mem_filter, decide_eq_true_eq] at h
  rcases hmp : p.MountPoint with _ | ⟨c, tl⟩
  · exact absurd hmp h.2
  · exact ⟨c, tl, rfl⟩

theorem lowerASCII_lt (c : Nat) (h : c < 128) : strings.lowerASCII c < 160 := by
  unfold strings.lowerASCII
  split <;> omega

theorem ToLowerByte_of_isPrefix (c d : Nat)
    (h : strings.ToLowerByte c <+: strings.ToLowerByte d) :
    strings.ToLowerByte c = strings.ToLowerByte d := by
  unfold strings.ToLowerByte at h ⊢
  by_cases hc : c < 128 <;> by_cases hd : d < 128
  · rw [if_pos hc, if_pos hd] at h ⊢
    exact h.eq_of_length rfl
  · rw [if_pos hc, if_neg hd] at h
    rw [List.cons_prefix_cons] at h
    have := lowerASCII_lt c hc
    omega
  · rw [if_neg hc, if_pos hd] at h
    have := h.length_le
    simp at this
  · rw [if_neg hc, if_neg hd]

theorem ToLowerByte_ne_nil (c : Nat) : strings.ToLowerByte c ≠ [] := by
  unfold strings.ToLowerByte
  split <;> simp

theorem handler_of_usable (ps : List PartitionStat) (i : Nat) (p : PartitionStat)
    (hp : (usable ps)[i]? = some p) :
    ∃ a, (buildRange ps { handlers := [], memFS := [], memLS := 0 }).handlers[i]? = some a ∧
      a.Prefix = ascii "/" ++ lowerFirst p := by
  have h := congrArg (fun l => l[i]?) (NewWindowsHandler_Prefix ps)
  simp only [List.getElem?_map, hp, Option.map_some'] at h
  rcases Option.map_eq_some'.mp h with ⟨a, ha, hpre⟩
  exact ⟨a, ha, hpre⟩

theorem handler_Prefix_form (ps : List PartitionStat) (a : Handler)
    (ha : a ∈ (buildRange ps { handlers := [], memFS := [], memLS := 0 }).handlers) :
    ∃ c, a.Prefix = ascii "/" ++ strings.ToLowerByte c := by
  have hmem : a.Prefix ∈
      (buildRange ps { handlers := [], memFS := [], memLS := 0 }).handlers.map Handler.Prefix :=
    List.mem_map_of_mem _ ha
  rw [NewWindowsHandler_Prefix, List.mem_map] at hmem
  rcases hmem with ⟨p, hp, hpre⟩
  rcases usable_MountPoint ps p hp with ⟨c, tl, hmp⟩
  exact ⟨c, by rw [← hpre, lowerFirst_of_cons p c tl hmp]⟩

theorem handlers_isPrefix_eq (ps : List PartitionStat) (a b : Handler)
    (ha : a ∈ (buildRange ps { handlers := [], memFS := [], memLS := 0 }).handlers)
    (hb : b ∈ (buildRange ps { handlers := [], memFS := [], memLS := 0 }).handlers)
    (hab : a.Prefix <+: b.Prefix) : a.Prefix = b.Prefix := by
  rcases handler_Prefix_form ps a ha with ⟨c, hc⟩
  rcases handler_Prefix_form ps b hb with ⟨d, hd⟩
  rw [hc, hd] at hab ⊢
  rw [List.prefix_append_right_inj] at hab
  rw [ToLowerByte_of_isPrefix c d hab]

theorem usable_of_handler (ps : List PartitionStat) (m : Nat) (g : Handler)
    (hg : (buildRange ps { handlers := [], memFS := [], memLS := 0 }).handlers[m]? = some g) :
    ∃ r, (usable ps)[m]? = some r ∧ g.Prefix = ascii "/" ++ lowerFirst r := by
  have h := congrArg (fun l => l[m]?) (NewWindowsHandler_Prefix ps)
  simp only [List.getElem?_map, hg, Option.map_some'] at h
  rcases Option.map_eq_some'.mp h.symm with ⟨r, hr, hpre⟩
  exact ⟨r, hr, hpre.symm⟩

/-- C5, refuted as stated: for two partitions with mount point `C:` the builder
returns no error and keeps a binding for each, so the binding list holds the prefix
`/c` twice. -/
theorem NewWindowsHandler_duplicate_prefix :
    ∃ wh, NewWindowsHandler (twoC, none) = (some wh, none) ∧
      wh.handlers.map Handler.Prefix = [ascii "/c", ascii "/c"] ∧
      ¬ (wh.handlers.map Handler.Prefix).Nodup :=
  ⟨_, rfl, by decide, by decide⟩

/-- C5, amended: the builder never discards a partition with a non-empty mount point
and never fails on a partition list: it makes one binding per such partition. When
two of them have the same lower-cased first byte, both bindings are in the list, in
order and with the same `Prefix`, and `ServeHTTP` never dispatches to the later one.
When the earlier of the two is the first partition with that lower-cased first
byte, every request path that carries their common `Prefix` is dispatched to the
binding of that first-seen partition. -/
theorem NewWindowsHandler_keeps_both (ps : List PartitionStat) :
    ∃ wh, NewWindowsHandler (ps, none) = (some wh, none) ∧
      wh.handlers.length = (usable ps).length ∧
      ∀ i j p q, i < j → (usable ps)[i]? = some p → (usable ps)[j]? = some q →
        lowerFirst p = lowerFirst q →
        (∃ a b, wh.handlers[i]? = some a ∧ wh.handlers[j]? = some b ∧
          a.Prefix = ascii "/" ++ lowerFirst p ∧ b.Prefix = a.Prefix) ∧
        (∀ path, wh.ServeHTTP path ≠ Dispatch.handler j) ∧
        ((∀ m r, m < i → (usable ps)[m]? = some r → lowerFirst r ≠ lowerFirst p) →
          ∀ rest, wh.ServeHTTP (ascii "/" ++ lowerFirst p ++ rest) = Dispatch.handler i) := by
  refine ⟨_, NewWindowsHandler_eq ps, ?_, ?_⟩
  · have h := congrArg List.length (NewWindowsHandler_Prefix ps)
    simpa using h
  · intro i j p q hij hp hq hsame
    rcases handler_of_usable ps i p hp with ⟨a, ha, hapre⟩
    rcases handler_of_usable ps j q hq with ⟨b, hb, hbpre⟩
    have hba : b.Prefix = a.Prefix := by rw [hapre, hbpre, hsame]
    refine ⟨⟨a, b, ha, hb, hapre, hba⟩, ?_, ?_⟩
    · intro path hd
      unfold WindowsHandler.ServeHTTP at hd
      split at hd
      · cases hd
      · rw [serveRange_eq_handler] at hd
        rcases hd with ⟨_, g, hg, hgp, hfirst⟩
        simp only [Nat.sub_zero] at hg hfirst
        rw [hb] at hg
        cases hg
        rw [hba] at hgp
        exact hfirst i hij a ha hgp
    · intro hfirstSeen rest
      have hpmem : p ∈ usable ps := List.mem_iff_getElem?.mpr ⟨i, hp⟩
      rcases usable_MountPoint ps p hpmem with ⟨c, tl, hmp⟩
      have hlf : lowerFirst p ≠ [] := by
        rw [lowerFirst_of_cons p c tl hmp]
        exact ToLowerByte_ne_nil c
      have hne : ascii "/" ++ lowerFirst p ++ rest ≠ ascii "/" := by
        intro e
        rw [List.append_assoc] at e
        have e2 : ascii "/" ++ (lowerFirst p ++ rest) = ascii "/" ++ [] := by
          rw [List.append_nil]
          exact e
        have e3 := List.append_cancel_left e2
        exact hlf (List.append_eq_nil.mp e3).1
      have hapath : a.Prefix <+: ascii "/" ++ lowerFirst p ++ rest := by
        rw [hapre]
        exact List.prefix_append _ _
      unfold WindowsHandler.ServeHTTP
      rw [if_neg hne, serveRange_eq_handler]
      refine ⟨Nat.zero_le _, a, ha, hapath, ?_⟩
      intro m hm g hg hgpath
      have hgmem := List.mem_iff_getElem?.mpr ⟨m, hg⟩
      have hamem := List.mem_iff_getElem?.mpr ⟨i, ha⟩
      have hga : g.Prefix = a.Prefix := by
        rcases List.prefix_or_prefix_of_prefix hgpath hapath with h | h
        · exact handlers_isPrefix_eq ps g a hgmem hamem h
        · exact (handlers_isPrefix_eq ps a g hamem hgmem h).symm
      rcases usable_of_handler ps m g hg with ⟨r, hr, hgpre⟩
      rw [hgpre, hapre] at hga
      exact hfirstSeen m r hm hr (List.append_cancel_left hga)

/-- Witness of the amended C5: of the two partitions `C:`, the binding of the second
is never dispatched to and `/c/readme.txt` goes to the binding of the first. -/
theorem NewWindowsHandler_keeps_both_witness :
    ∃ wh, NewWindowsHandler (twoC, none) = (some wh, none) ∧
      wh.handlers.length = 2 ∧
      (∀ path, wh.ServeHTTP path ≠ Dispatch.handler 1) ∧
      wh.ServeHTTP (ascii "/c/readme.txt") = Dispatch.handler 0 := by
  rcases NewWindowsHandler_keeps_both twoC with ⟨wh, hwh, hlen, hall⟩
  have h := hall 0 1 (drive 67) { drive 67 with FsType := ascii "FAT32" } (by decide)
    rfl rfl rfl
  exact ⟨wh, hwh, hlen, h.2.1,
    h.2.2 (fun m _ hm => absurd hm (Nat.not_lt_zero m)) (ascii "/readme.txt")⟩

/-- C6, refuted as stated: the identifier being the mount point, the partition `C:`
gets the prefix `/c`, which is not `/` followed by the lower-cased mount point
(`/c:`). -/
theorem NewWindowsHandler_prefix_not_MountPoint :
    ([drive 67].map PartitionStat.MountPoint).Nodup ∧
    ∃ wh, NewWindowsHandler ([drive 67], none) = (some wh, none) ∧
      wh.handlers.map Handler.Prefix = [ascii "/c"] ∧
      wh.handlers.map Handler.Prefix ≠
        [drive 67].map (fun p => ascii "/" ++ strings.ToLowerASCII p.MountPoint) :=
  ⟨by decide, _, rfl, by decide, by decide⟩

/-- C6, amended: for every partition list (one with pairwise distinct mount points
included) the builder returns no error and makes exactly one binding per partition
with a non-empty mount point, in the same order, and the `Prefix` of each is `/`
followed by `strings.ToLower` of the first byte of its mount point only. -/
theorem NewWindowsHandler_one_binding_each (ps : List PartitionStat) :
    ∃ wh, NewWindowsHandler (ps, none) = (some wh, none) ∧
      wh.handlers.length = (ps.filter (fun p => decide (p.MountPoint ≠ []))).length ∧
      wh.handlers.map Handler.Prefix =
        (ps.filter (fun p => decide (p.MountPoint ≠ []))).map
          (fun p => ascii "/" ++ lowerFirst p) ∧
      ∀ p ∈ ps, ∀ c tl, p.MountPoint = c :: tl →
        lowerFirst p = strings.ToLowerByte c ∧
        ascii "/" ++ lowerFirst p ∈ wh.handlers.map Handler.Prefix := by
  have hpre := NewWindowsHandler_Prefix ps
  refine ⟨_, NewWindowsHandler_eq ps, ?_, hpre, ?_⟩
  · have h := congrArg List.length hpre
    simpa [usable] using h
  · intro p hp c tl hmp
    refine ⟨lowerFirst_of_cons p c tl hmp, ?_⟩
    rw [hpre]
    apply List.mem_map_of_mem
    unfold usable
    rw [List.mem_filter, decide_eq_true_eq, hmp]
    exact ⟨hp, by simp⟩

/-- Witness of the amended C6: the partitions `C:` and `D:` give `/c` and `/d`. -/
theorem NewWindowsHandler_one_binding_each_witness :
    ∃ wh, NewWindowsHandler ([drive 67, drive 68], none) = (some wh, none) ∧
      wh.handlers.map Handler.Prefix = [ascii "/c", ascii "/d"] := by
  rcases NewWindowsHandler_one_binding_each [drive 67, drive 68] with ⟨wh, hwh, _, hpre, _⟩
  exact ⟨wh, hwh, hpre.trans (by decide)⟩

/-- C7: in the binding list built from any partition list, no `Prefix` is the root
`/`; of two bindings with different `Prefix` neither `Prefix` is a string prefix of
the other; so two bindings that both match a request path have the same `Prefix`. -/
theorem NewWindowsHandler_prefix_free (ps : List PartitionStat) :
    ∃ wh, NewWindowsHandler (ps, none) = (some wh, none) ∧
      (∀ a ∈ wh.handlers, a.Prefix ≠ ascii "/") ∧
      (∀ a ∈ wh.handlers, ∀ b ∈ wh.handlers, a.Prefix ≠ b.Prefix →
        strings.HasPrefix b.Prefix a.Prefix = false ∧
        strings.HasPrefix a.Prefix b.Prefix = false) ∧
      (∀ path, ∀ a ∈ wh.handlers, ∀ b ∈ wh.handlers,
        strings.HasPrefix path a.Prefix = true → strings.HasPrefix path b.Prefix = true →
        a.Prefix = b.Prefix) := by
  have key : ∀ a ∈ (buildRange ps { handlers := [], memFS := [], memLS := 0 }).handlers,
      ∀ b ∈ (buildRange ps { handlers := [], memFS := [], memLS := 0 }).handlers,
      a.Prefix <+: b.Prefix → a.Prefix = b.Prefix := by
    intro a ha b hb hab
    rcases handler_Prefix_form ps a ha with ⟨c, hc⟩
    rcases handler_Prefix_form ps b hb with ⟨d, hd⟩
    rw [hc, hd] at hab ⊢
    rw [List.prefix_append_right_inj] at hab
    rw [ToLowerByte_of_isPrefix c d hab]
  refine ⟨_, NewWindowsHandler_eq ps, ?_, ?_, ?_⟩
  · intro a ha e
    rcases handler_Prefix_form ps a ha with ⟨c, hc⟩
    rw [hc] at e
    have h2 : strings.ToLowerByte c = [] := by
      have e2 : ascii "/" ++ strings.ToLowerByte c = ascii "/" ++ [] := by
        rw [List.append_nil]
        exact e
      exact List.append_cancel_left e2
    exact ToLowerByte_ne_nil c h2
  · intro a ha b hb hne
    constructor
    · rw [HasPrefix_eq_false_iff]
      exact fun h => hne (key a ha b hb h)
    · rw [HasPrefix_eq_false_iff]
      exact fun h => hne (key b hb a ha h).symm
  · intro path a ha b hb hpa hpb
    rw [HasPrefix_iff] at hpa hpb
    rcases List.prefix_or_prefix_of_prefix hpa hpb with h | h
    · exact key a ha b hb h
    · exact (key b hb a ha h).symm

/-- Witness of C7: for the partitions `C:` and `D:`, the prefixes `/c` and `/d` differ
and neither is a prefix of the other. -/
theorem NewWindowsHandler_prefix_free_witness :
    strings.HasPrefix (ascii "/d") (ascii "/c") = false ∧
    strings.HasPrefix (ascii "/c") (ascii "/d") = false := by
  rcases NewWindowsHandler_prefix_free [drive 67, drive 68] with ⟨wh, hwh, _, h2, _⟩
  cases hwh
  exact h2 { Prefix := ascii "/c", FileSystem := FileSystem.Dir (ascii "c:"), LockSystem := 0 }
    (by decide)
    { Prefix := ascii "/d", FileSystem := FileSystem.Dir (ascii "d:"), LockSystem := 1 }
    (by decide) (by decide)

/-! ## Lock systems -/

theorem lock_other (a b : Handler) (hne : a.LockSystem ≠ b.LockSystem)
    (t : LockTables) (name : GoString) :
    (a.lock name t).1 b.LockSystem = t b.LockSystem := by
  unfold Handler.lock
  split
  · rfl
  · exact Function.update_noteq (Ne.symm hne) _ _

theorem lock_granted (b : Handler) (name : GoString) (t : LockTables) :
    (b.lock name t).2 = decide (name ∉ t b.LockSystem) := by
  unfold Handler.lock
  split <;> simp [*]

/-- C10: every backend of the table the builder returns, the volume handlers and the
root handler, has a lock-system instance of its own: no two backends share one.
Hence a lock taken through one backend is not visible through another backend and
does not change whether a lock request through the other is granted, also for the
same resource name. -/
theorem NewWindowsHandler_lock_isolation (ps : List PartitionStat) :
    ∃ wh, NewWindowsHandler (ps, none) = (some wh, none) ∧
      (wh.backends.map Handler.LockSystem).Nodup ∧
      ∀ (i j : Nat) (a b : Handler), i ≠ j → wh.backends[i]? = some a →
        wh.backends[j]? = some b →
        a.LockSystem ≠ b.LockSystem ∧
        ∀ (t : LockTables) (name other : GoString),
          b.locked other (a.lock name t).1 = b.locked other t ∧
          (b.lock other (a.lock name t).1).2 = (b.lock other t).2 := by
  have hnd : ((buildRange ps { handlers := [], memFS := [], memLS := 0 }).handlers.map
        Handler.LockSystem ++
        [(buildRange ps { handlers := [], memFS := [], memLS := 0 }).memLS]).Nodup := by
    rcases buildRange_LockSystem ps { handlers := [], memFS := [], memLS := 0 }
      (by simp) (by simp) with ⟨hlt, hn⟩
    rw [List.nodup_append]
    refine ⟨hn, List.nodup_singleton _, ?_⟩
    intro x hx hx2
    rw [List.mem_singleton] at hx2
    exact absurd (hlt x hx) (by rw [hx2]; exact Nat.lt_irrefl _)
  refine ⟨_, NewWindowsHandler_eq ps, ?_, ?_⟩
  · simpa [WindowsHandler.backends] using hnd
  · intro i j a b hij ha hb
    have hne : a.LockSystem ≠ b.LockSystem := by
      intro e
      have hnd2 : (List.map Handler.LockSystem (WindowsHandler.backends
          { handlers := (buildRange ps { handlers := [], memFS := [], memLS := 0 }).handlers,
            memHandler :=
              { Prefix := ascii "/",
                FileSystem := FileSystem.MemFS
                  (buildRange ps { handlers := [], memFS := [], memLS := 0 }).memFS,
                LockSystem :=
                  (buildRange ps { handlers := [], memFS := [], memLS := 0 }).memLS } })).Nodup := by
        simpa [WindowsHandler.backends] using hnd
      have hi : i < (List.map Handler.LockSystem (WindowsHandler.backends
          { handlers := (buildRange ps { handlers := [], memFS := [], memLS := 0 }).handlers,
            memHandler :=
              { Prefix := ascii "/",
                FileSystem := FileSystem.MemFS
                  (buildRange ps { handlers := [], memFS := [], memLS := 0 }).memFS,
                LockSystem :=
                  (buildRange ps { handlers := [], memFS := [], memLS := 0 }).memLS } })).length := by
        rw [List.length_map]
        exact (List.getElem?_eq_some.mp ha).1
      apply hij
      apply List.getElem?_inj hi hnd2
      rw [List.getElem?_map, List.getElem?_map, ha, hb, Option.map_some', Option.map_some', e]
    refine ⟨hne, fun t name other => ?_⟩
    have hsame := lock_other a b hne t name
    constructor
    · unfold Handler.locked
      rw [hsame]
    · rw [lock_granted, lock_granted, hsame]

/-- Witness of C10: for the partitions `C:` and `D:`, a lock on `/f` taken through the
`/c` backend is not visible through the `/d` backend. -/
theorem NewWindowsHandler_lock_isolation_witness :
    Handler.locked
      { Prefix := ascii "/d", FileSystem := FileSystem.Dir (ascii "d:"), LockSystem := 1 }
      (ascii "/f")
      (Handler.lock
        { Prefix := ascii "/c", FileSystem := FileSystem.Dir (ascii "c:"), LockSystem := 0 }
        (ascii "/f") (fun _ => [])).1 = false := by
  rcases NewWindowsHandler_lock_isolation [drive 67, drive 68] with ⟨wh, hwh, _, h⟩
  cases hwh
  have h01 := (h 0 1
    { Prefix := ascii "/c", FileSystem := FileSystem.Dir (ascii "c:"), LockSystem := 0 }
    { Prefix := ascii "/d", FileSystem := FileSystem.Dir (ascii "d:"), LockSystem := 1 }
    (by decide) rfl rfl).2 (fun _ => []) (ascii "/f") (ascii "/f")
  rw [h01.1]
  decide

/-! ## The volume source -/

theorem partitionsRange_ok (k : Kernel32) (buf : List Nat) (ret : List PartitionStat)
    (hall : ∀ v ∈ buf, 65 ≤ v → v ≤ 90 →
      (k.GetDriveTypeW ([v] ++ ascii ":")).1 ≠ 0 ∧
      ((k.GetDriveTypeW ([v] ++ ascii ":")).1 = 3 ∨ (k.GetDriveTypeW ([v] ++ ascii ":")).1 = 4 →
        (k.GetVolumeInformationW ([v] ++ ascii ":/")).driveret ≠ 0)) :
    partitionsRange k buf ret = (ret ++ buf.filterMap (contribution k), none) := by
  induction buf generalizing ret with
  | nil => simp [partitionsRange]
  | cons v rest ih =>
    have ihr := fun r => ih r (fun w hw => hall w (List.mem_cons_of_mem _ hw))
    have hv := hall v (List.mem_cons_self _ _)
    unfold partitionsRange
    by_cases hletter : 65 ≤ v ∧ v ≤ 90
    · rcases hv hletter.1 hletter.2 with ⟨hty, hprobe⟩
      rw [if_pos hletter]
      simp only []
      rw [if_neg hty]
      by_cases hkind : (k.GetDriveTypeW ([v] ++ ascii ":")).1 = 2 ∨
          (k.GetDriveTypeW ([v] ++ ascii ":")).1 = 3 ∨
          (k.GetDriveTypeW ([v] ++ ascii ":")).1 = 4 ∨
          (k.GetDriveTypeW ([v] ++ ascii ":")).1 = 5
      · rw [if_pos hkind]
        by_cases hret : (k.GetVolumeInformationW ([v] ++ ascii ":/")).driveret = 0
        · have h25 : (k.GetDriveTypeW ([v] ++ ascii ":")).1 = 5 ∨
              (k.GetDriveTypeW ([v] ++ ascii ":")).1 = 2 := by
            rcases hkind with h | h | h | h
            · exact Or.inr h
            · exact absurd hret (hprobe (Or.inl h))
            · exact absurd hret (hprobe (Or.inr h))
            · exact Or.inl h
          rw [if_pos hret, if_pos h25, ihr]
          have hc : contribution k v = none := by
            unfold contribution
            rw [if_pos hletter]
            simp only []
            rw [if_neg (fun h => h.2 hret)]
          rw [List.filterMap_cons, hc]
        · rw [if_neg hret, ihr]
          have hc : contribution k v =
              some (descriptor v (k.GetVolumeInformationW ([v] ++ ascii ":/"))) := by
            unfold contribution
            rw [if_pos hletter]
            simp only []
            rw [if_pos ⟨hkind, hret⟩]
          rw [List.filterMap_cons, hc]
          simp
      · rw [if_neg hkind, ihr]
        have hc : contribution k v = none := by
          unfold contribution
          rw [if_pos hletter]
          simp only []
          rw [if_neg (fun h => hkind h.1)]
        rw [List.filterMap_cons, hc]
    · rw [if_neg hletter, ihr]
      have hc : contribution k v = none := by
        unfold contribution
        rw [if_neg hletter]
      rw [List.filterMap_cons, hc]

theorem partitionsRange_append (k : Kernel32) (pre rest : List Nat)
    (ret : List PartitionStat)
    (hall : ∀ v ∈ pre, 65 ≤ v → v ≤ 90 →
      (k.GetDriveTypeW ([v] ++ ascii ":")).1 ≠ 0 ∧
      ((k.GetDriveTypeW ([v] ++ ascii ":")).1 = 3 ∨ (k.GetDriveTypeW ([v] ++ ascii ":")).1 = 4 →
        (k.GetVolumeInformationW ([v] ++ ascii ":/")).driveret ≠ 0)) :
    partitionsRange k (pre ++ rest) ret =
      partitionsRange k rest (ret ++ pre.filterMap (contribution k)) := by
  induction pre generalizing ret with
  | nil => simp
  | cons v pre ih =>
    have ihr := fun r => ih r (fun w hw => hall w (List.mem_cons_of_mem _ hw))
    have hv := hall v (List.mem_cons_self _ _)
    rw [List.cons_append, partitionsRange]
    by_cases hletter : 65 ≤ v ∧ v ≤ 90
    · rcases hv hletter.1 hletter.2 with ⟨hty, hprobe⟩
      rw [if_pos hletter]
      simp only []
      rw [if_neg hty]
      by_cases hkind : (k.GetDriveTypeW ([v] ++ ascii ":")).1 = 2 ∨
          (k.GetDriveTypeW ([v] ++ ascii ":")).1 = 3 ∨
          (k.GetDriveTypeW ([v] ++ ascii ":")).1 = 4 ∨
          (k.GetDriveTypeW ([v] ++ ascii ":")).1 = 5
      · rw [if_pos hkind]
        by_cases hret : (k.GetVolumeInformationW ([v] ++ ascii ":/")).driveret = 0
        · have h25 : (k.GetDriveTypeW ([v] ++ ascii ":")).1 = 5 ∨
              (k.GetDriveTypeW ([v] ++ ascii ":")).1 = 2 := by
            rcases hkind with h | h | h | h
            · exact Or.inr h
            · exact absurd hret (hprobe (Or.inl h))
            · exact absurd hret (hprobe (Or.inr h))
            · exact Or.inl h
          rw [if_pos hret, if_pos h25, ihr]
          have hc : contribution k v = none := by
            unfold contribution
            rw [if_pos hletter]
            simp only []
            rw [if_neg (fun h => h.2 hret)]
          rw [List.filterMap_cons, hc]
        · rw [if_neg hret, ihr]
          have hc : contribution k v =
              some (descriptor v (k.GetVolumeInformationW ([v] ++ ascii ":/"))) := by
            unfold contribution
            rw [if_pos hletter]
            simp only []
            rw [if_pos ⟨hkind, hret⟩]
          rw [List.filterMap_cons, hc]
          simp
      · rw [if_neg hkind, ihr]
        have hc : contribution k v = none := by
          unfold contribution
          rw [if_pos hletter]
          simp only []
          rw [if_neg (fun h => hkind h.1)]
        rw [List.filterMap_cons, hc]
    · rw [if_neg hletter, ihr]
      have hc : contribution k v = none := by
        unfold contribution
        rw [if_neg hletter]
      rw [List.filterMap_cons, hc]

theorem partitionsRange_type_zero (k : Kernel32) (v : Nat) (post : List Nat)
    (ret : List PartitionStat) (hletter : 65 ≤ v ∧ v ≤ 90)
    (hty : (k.GetDriveTypeW ([v] ++ ascii ":")).1 = 0) :
    partitionsRange k (v :: post) ret =
      (ret, GetLastError (k.GetDriveTypeW ([v] ++ ascii ":")).2) := by
  rw [partitionsRange, if_pos hletter]
  simp only []
  rw [if_pos hty]

theorem partitionsRange_probe_fails (k : Kernel32) (v : Nat) (post : List Nat)
    (ret : List PartitionStat) (hletter : 65 ≤ v ∧ v ≤ 90)
    (hty : (k.GetDriveTypeW ([v] ++ ascii ":")).1 = 3 ∨
      (k.GetDriveTypeW ([v] ++ ascii ":")).1 = 4)
    (hret : (k.GetVolumeInformationW ([v] ++ ascii ":/")).driveret = 0) :
    partitionsRange k (v :: post) ret =
      (ret, some (k.GetVolumeInformationW ([v] ++ ascii ":/")).err) := by
  have h0 : ¬ (k.GetDriveTypeW ([v] ++ ascii ":")).1 = 0 := by
    rcases hty with h | h <;> rw [h] <;> decide
  have hkind : (k.GetDriveTypeW ([v] ++ ascii ":")).1 = 2 ∨
      (k.GetDriveTypeW ([v] ++ ascii ":")).1 = 3 ∨
      (k.GetDriveTypeW ([v] ++ ascii ":")).1 = 4 ∨
      (k.GetDriveTypeW ([v] ++ ascii ":")).1 = 5 := by
    rcases hty with h | h
    · exact Or.inr (Or.inl h)
    · exact Or.inr (Or.inr (Or.inl h))
  have h25 : ¬ ((k.GetDriveTypeW ([v] ++ ascii ":")).1 = 5 ∨
      (k.GetDriveTypeW ([v] ++ ascii ":")).1 = 2) := by
    rcases hty with h | h <;> rw [h] <;> decide
  rw [partitionsRange, if_pos hletter]
  simp only []
  rw [if_neg h0, if_pos hkind, if_pos hret, if_neg h25]

/-- C8, refuted as stated: on a host whose drive list can be read, with the fixed
drives `C:` and `D:`, the volume information of `C:` cannot be read; `partitions`
returns a non-nil error and no descriptor, although `D:` has one. -/
theorem partitions_fixed_drive_probe_fails :
    hostLockedC.GetLogicalDriveStringsW.1 ≠ 0 ∧
    partitions hostLockedC = ([], some 5) ∧
    (partitions hostLockedC).2 ≠ none ∧
    contribution hostLockedC 68 = some (drive 68) ∧
    drive 68 ∉ (partitions hostLockedC).1 := by
  decide

/-- C8, amended: `partitions` returns the error of the drive enumeration call when that
call returns 0. Otherwise, provided no drive-type query returns 0 and no
volume-information probe of a fixed (3) or remote (4) drive fails, it returns a nil
error and, in drive order, the descriptor of every drive of type 2 to 5 whose probe
succeeded: a removable (2) or CD-ROM (5) drive whose probe fails is skipped
silently. At the first drive whose type query returns 0 the call ends with what
`windows.GetLastError()` gives, and at the first fixed or remote drive whose probe
fails it ends with the non-nil error of the probe; both times it returns the
descriptors collected before that drive and none of a later drive. -/
theorem partitions_skips_unready (k : Kernel32) :
    (k.GetLogicalDriveStringsW.1 = 0 →
      partitions k = ([], some k.GetLogicalDriveStringsW.2.1)) ∧
    (k.GetLogicalDriveStringsW.1 ≠ 0 →
      (∀ v ∈ k.lpBuffer, 65 ≤ v → v ≤ 90 →
        (k.GetDriveTypeW ([v] ++ ascii ":")).1 ≠ 0 ∧
        ((k.GetDriveTypeW ([v] ++ ascii ":")).1 = 3 ∨
            (k.GetDriveTypeW ([v] ++ ascii ":")).1 = 4 →
          (k.GetVolumeInformationW ([v] ++ ascii ":/")).driveret ≠ 0)) →
      partitions k = (k.lpBuffer.filterMap (contribution k), none)) ∧
    (k.GetLogicalDriveStringsW.1 ≠ 0 →
      ∀ (pre : List Nat) (v : Nat) (post : List Nat), k.lpBuffer = pre ++ v :: post →
      (∀ w ∈ pre, 65 ≤ w → w ≤ 90 →
        (k.GetDriveTypeW ([w] ++ ascii ":")).1 ≠ 0 ∧
        ((k.GetDriveTypeW ([w] ++ ascii ":")).1 = 3 ∨
            (k.GetDriveTypeW ([w] ++ ascii ":")).1 = 4 →
          (k.GetVolumeInformationW ([w] ++ ascii ":/")).driveret ≠ 0)) →
      65 ≤ v → v ≤ 90 →
      ((k.GetDriveTypeW ([v] ++ ascii ":")).1 = 0 →
        partitions k = (pre.filterMap (contribution k),
          GetLastError (k.GetDriveTypeW ([v] ++ ascii ":")).2)) ∧
      ((k.GetDriveTypeW ([v] ++ ascii ":")).1 = 3 ∨
          (k.GetDriveTypeW ([v] ++ ascii ":")).1 = 4 →
        (k.GetVolumeInformationW ([v] ++ ascii ":/")).driveret = 0 →
        partitions k = (pre.filterMap (contribution k),
          some (k.GetVolumeInformationW ([v] ++ ascii ":/")).err))) := by
  refine ⟨?_, ?_, ?_⟩
  · intro h0
    unfold partitions
    rw [if_pos h0]
  · intro h0 hall
    unfold partitions
    rw [if_neg h0, partitionsRange_ok k k.lpBuffer [] hall]
    simp
  · intro h0 pre v post hbuf hall h65 h90
    constructor
    · intro hty
      unfold partitions
      rw [if_neg h0, hbuf, partitionsRange_append k pre (v :: post) [] hall,
        partitionsRange_type_zero k v post _ ⟨h65, h90⟩ hty]
      simp
    · intro hty hret
      unfold partitions
      rw [if_neg h0, hbuf, partitionsRange_append k pre (v :: post) [] hall,
        partitionsRange_probe_fails k v post _ ⟨h65, h90⟩ hty hret]
      simp

/-- Witness of the amended C8: the CD-ROM drive `E:` without a disc is skipped, the
fixed drives `C:` and `D:` around it are returned, and the error is nil; where the
probe of the fixed drive `D:` fails, or its type is 0, only `C:` is returned, not
`E:`, with error 5 or with last error 15. -/
theorem partitions_skips_unready_witness :
    hostEmptyTray.GetLogicalDriveStringsW.1 ≠ 0 ∧
    (hostEmptyTray.GetVolumeInformationW (ascii "E:/")).driveret = 0 ∧
    partitions hostEmptyTray = ([drive 67, drive 68], none) ∧
    partitions hostLockedD = ([drive 67], some 5) ∧
    partitions hostUnknownD = ([drive 67], some 15) := by
  refine ⟨by decide, by decide, ?_, ?_, ?_⟩
  · have hall : ∀ v ∈ hostEmptyTray.lpBuffer, 65 ≤ v → v ≤ 90 →
        (hostEmptyTray.GetDriveTypeW ([v] ++ ascii ":")).1 ≠ 0 ∧
        ((hostEmptyTray.GetDriveTypeW ([v] ++ ascii ":")).1 = 3 ∨
            (hostEmptyTray.GetDriveTypeW ([v] ++ ascii ":")).1 = 4 →
          (hostEmptyTray.GetVolumeInformationW ([v] ++ ascii ":/")).driveret ≠ 0) := by
      intro v _ _ _
      by_cases hv : v = 69
      · subst hv
        decide
      · have h1 : [v] ++ ascii ":" ≠ ascii "E:" := by
          intro e
          exact hv (List.head_eq_of_cons_eq e)
        have h2 : [v] ++ ascii ":/" ≠ ascii "E:/" := by
          intro e
          exact hv (List.head_eq_of_cons_eq e)
        simp only [hostEmptyTray, if_neg h1, if_neg h2]
        decide
    rw [(partitions_skips_unready hostEmptyTray).2.1 (by decide) hall]
    decide
  · rw [((partitions_skips_unready hostLockedD).2.2 (by decide)
      [67, 0, 58, 0, 92, 0, 0, 0] 68 (hostLockedD.lpBuffer.drop 9) rfl (by decide)
      (by decide) (by decide)).2 (by decide) (by decide)]
    decide
  · rw [((partitions_skips_unready hostUnknownD).2.2 (by decide)
      [67, 0, 58, 0, 92, 0, 0, 0] 68 (hostUnknownD.lpBuffer.drop 9) rfl (by decide)
      (by decide) (by decide)).1 (by decide)]
    decide
